import Mathlib

/-!
Shallow embedding of the offline-first sync engine of the expense-buddy
repository (src/src/lib/sync.ts and src/src/lib/db.ts).

The local Dexie table `db.expenses` is modelled as a list of `LocalExpense`
rows (the primary key is `id`); the remote record service is modelled as a
list of `ApiExpense` rows.  Environment inputs of the TypeScript code
(`Date.now()`, `crypto.randomUUID()`, `new Date().toISOString()`, network
failures) are passed in as explicit parameters, so every definition is a
pure, executable function translated line by line from the source.
-/

namespace ExpenseBuddy

/-- Sync status of a local row (db.ts, `SyncStatus`). -/
inductive SyncStatus
  | synced
  | pending
  | deleted
deriving DecidableEq, Repr

/-- A record as stored on the remote service (`ApiExpense`): the payload
fields plus the id and the server-side `created_at`. -/
structure ApiExpense where
  id : String
  amount : Int
  category : String
  subcategory : Option String
  date : String
  note : Option String
  created_at : Option String
deriving DecidableEq, Repr

/-- A local row (db.ts, `LocalExpense`): the payload fields plus the sync
metadata `syncStatus` and `updatedAt`. -/
structure LocalExpense where
  id : String
  amount : Int
  category : String
  subcategory : Option String
  date : String
  note : Option String
  created_at : Option String
  syncStatus : SyncStatus
  updatedAt : Nat
deriving DecidableEq, Repr

abbrev Store := List LocalExpense
abbrev Remote := List ApiExpense

/-- `db.expenses.get(id)`: the row with the given primary key. -/
def dbGet (st : Store) (i : String) : Option LocalExpense :=
  st.find? (fun e => e.id = i)

/-- `db.expenses.put(e)`: insert or overwrite by id. -/
def dbPut (st : Store) (e : LocalExpense) : Store :=
  if st.any (fun x => x.id = e.id) then
    st.map (fun x => if x.id = e.id then e else x)
  else st ++ [e]

/-- `db.expenses.add(e)`: insert, a no-op here when the key already exists
(Dexie would reject the duplicate). -/
def dbAdd (st : Store) (e : LocalExpense) : Store :=
  if st.any (fun x => x.id = e.id) then st else st ++ [e]

/-- `db.expenses.delete(id)`: physical removal by primary key. -/
def dbDelete (st : Store) (i : String) : Store :=
  st.filter (fun e => ¬ e.id = i)

/-- `db.expenses.update(id, { syncStatus: 'synced' })`. -/
def dbSetSynced (st : Store) (i : String) : Store :=
  st.map (fun x => if x.id = i then { x with syncStatus := SyncStatus.synced } else x)

/-- JavaScript falsiness of an optional string (`!existing.created_at`):
true exactly for a missing value or the empty string. -/
def optStrFalsy : Option String → Bool
  | none => true
  | some s => s = ""

/-- A pulled server record stored locally: `{ ...serverExp, syncStatus:
'synced', updatedAt: now() }`. -/
def toLocal (r : ApiExpense) (t : Nat) : LocalExpense :=
  { id := r.id, amount := r.amount, category := r.category,
    subcategory := r.subcategory, date := r.date, note := r.note,
    created_at := r.created_at, syncStatus := SyncStatus.synced, updatedAt := t }

/-- The payload sent on a push: `const { syncStatus, updatedAt,
...expenseData } = expense`. -/
def toApi (e : LocalExpense) : ApiExpense :=
  { id := e.id, amount := e.amount, category := e.category,
    subcategory := e.subcategory, date := e.date, note := e.note,
    created_at := e.created_at }

/-- `expenseApi.getById(id)` on the modelled remote. -/
def remoteGetById (rem : Remote) (i : String) : Option ApiExpense :=
  rem.find? (fun r => r.id = i)

/-- `expenseApi.update(id, data)` on the modelled remote: the row keyed by
`id` takes the pushed payload. -/
def remoteUpdate (rem : Remote) (i : String) (data : ApiExpense) : Remote :=
  rem.map (fun r => if r.id = i then { data with id := r.id } else r)

/-- `expenseApi.create(data)` on the modelled remote. -/
def remoteCreate (rem : Remote) (data : ApiExpense) : Remote :=
  rem ++ [data]

/-- `expenseApi.delete(id)` on the modelled remote. -/
def remoteDelete (rem : Remote) (i : String) : Remote :=
  rem.filter (fun r => ¬ r.id = i)

/-- sync.ts, `areExpensesEqual`: field-by-field payload comparison,
excluding sync metadata. -/
def areExpensesEqual (loc : LocalExpense) (server : ApiExpense) : Bool :=
  loc.amount = server.amount &&
  loc.category = server.category &&
  loc.subcategory = server.subcategory &&
  loc.date = server.date &&
  loc.note = server.note

/-- sync.ts, `SyncResult`. -/
structure SyncResult where
  success : Bool
  pushed : Nat
  pulled : Nat
  errors : List String
deriving DecidableEq, Repr

/-- The fresh result at the top of `syncWithServer`. -/
def initResult : SyncResult :=
  { success := false, pushed := 0, pulled := 0, errors := [] }

/-- The outcome of a `syncWithServer` call: the final local store, the
final remote state, the stored `lastSyncTime`, and the returned result. -/
structure SyncOutcome where
  store : Store
  remote : Remote
  lastSync : Option Nat
  result : SyncResult
deriving DecidableEq, Repr

/-- One iteration of the push loop for a pending record (`syncWithServer`
step 1).  `pf e.id = true` means the remote round-trip for this record
throws, landing in the per-record catch. -/
def pushPendingStep (pf : String → Bool) (acc : Store × Remote × SyncResult)
    (e : LocalExpense) : Store × Remote × SyncResult :=
  if pf e.id then
    (acc.1, acc.2.1,
      { acc.2.2 with errors := acc.2.2.errors ++ ["Failed to push expense " ++ e.id] })
  else
    (dbSetSynced acc.1 e.id,
     (match remoteGetById acc.2.1 e.id with
      | some _ => remoteUpdate acc.2.1 e.id (toApi e)
      | none => remoteCreate acc.2.1 (toApi e)),
     { acc.2.2 with pushed := acc.2.2.pushed + 1 })

/-- One iteration of the push loop for a soft-deleted record
(`syncWithServer` step 2). -/
def pushDeletedStep (df : String → Bool) (acc : Store × Remote × SyncResult)
    (e : LocalExpense) : Store × Remote × SyncResult :=
  if df e.id then
    (acc.1, acc.2.1,
      { acc.2.2 with errors := acc.2.2.errors ++ ["Failed to delete expense " ++ e.id] })
  else
    (dbDelete acc.1 e.id, remoteDelete acc.2.1 e.id,
      { acc.2.2 with pushed := acc.2.2.pushed + 1 })

/-- `syncWithServer` step 1: push every record of the pending snapshot. -/
def pushPendingPhase (pf : String → Bool) (st : Store) (rem : Remote)
    (res : SyncResult) : Store × Remote × SyncResult :=
  (st.filter (fun e => e.syncStatus = SyncStatus.pending)).foldl (pushPendingStep pf)
    (st, rem, res)

/-- `syncWithServer` step 2: push every record of the deleted snapshot. -/
def pushDeletedPhase (df : String → Bool) (st : Store) (rem : Remote)
    (res : SyncResult) : Store × Remote × SyncResult :=
  (st.filter (fun e => e.syncStatus = SyncStatus.deleted)).foldl (pushDeletedStep df)
    (st, rem, res)

/-- One iteration of the pull loop (`syncWithServer` step 3). -/
def pullStep (t : Nat) (acc : Store × Nat) (r : ApiExpense) : Store × Nat :=
  match dbGet acc.1 r.id with
  | none => (dbPut acc.1 (toLocal r t), acc.2 + 1)
  | some loc =>
    if loc.syncStatus = SyncStatus.synced then
      if areExpensesEqual loc r then acc
      else (dbPut acc.1 (toLocal r t), acc.2 + 1)
    else acc

/-- `syncWithServer` step 3: fold the pull loop over the fetched server
records, threading the store and the running `pulled` count. -/
def pullPhase (t : Nat) (serverExpenses : Remote) (st : Store) (n : Nat) :
    Store × Nat :=
  serverExpenses.foldl (pullStep t) (st, n)

/-- `syncWithServer` tombstone cleanup: delete every locally synced id
(snapshot taken before the pull loop) that is absent from the server. -/
def cleanupPhase (serverIds : List String) (syncedIds : List String)
    (st : Store) : Store :=
  syncedIds.foldl (fun acc i => if i ∈ serverIds then acc else dbDelete acc i) st

/-- sync.ts, `syncWithServer`.  `reachable` is the result of
`checkServerConnection()`; `pf`/`df` tell which per-record pushes throw;
`t` is `now()`.  The subcategory/category reference-data sync (steps 4-5)
touches separate tables and is outside the expense store modelled here. -/
def syncWithServer (reachable : Bool) (pf df : String → Bool) (t : Nat)
    (st : Store) (rem : Remote) (lastSync : Option Nat) : SyncOutcome :=
  if reachable then
    let p1 := pushPendingPhase pf st rem initResult
    let p2 := pushDeletedPhase df p1.1 p1.2.1 p1.2.2
    let syncedIds := (p2.1.filter (fun e => e.syncStatus = SyncStatus.synced)).map
      (fun e => e.id)
    let p3 := pullPhase t p2.2.1 p2.1 p2.2.2.pulled
    let st4 := cleanupPhase (p2.2.1.map (fun r => r.id)) syncedIds p3.1
    ⟨st4, p2.2.1, some t, { p2.2.2 with pulled := p3.2, success := true }⟩
  else
    ⟨st, rem, lastSync,
      { success := false, pushed := 0, pulled := 0, errors := ["Backend is not reachable"] }⟩

/-- sync.ts, `syncApi.getAllExpenses`: rows whose status is not 'deleted',
sorted by the domain date descending (Dexie `reverse().sortBy('date')`). -/
def getAllExpenses (st : Store) : List LocalExpense :=
  (st.filter (fun e => ¬ e.syncStatus = SyncStatus.deleted)).mergeSort
    (fun a b => b.date ≤ a.date)

/-- The caller-supplied payload of `syncApi.createExpense`. -/
structure NewExpenseInput where
  amount : Int
  category : String
  subcategory : Option String
  date : String
  note : Option String
deriving DecidableEq, Repr

/-- sync.ts, `syncApi.createExpense`.  `generatedId` stands for
`generateId()`, `createdAtIso` for `new Date().toISOString()` and `t` for
`now()`. -/
def createExpense (generatedId : String) (createdAtIso : String) (t : Nat)
    (input : NewExpenseInput) (st : Store) : LocalExpense × Store :=
  let newExpense : LocalExpense :=
    { id := generatedId, amount := input.amount, category := input.category,
      subcategory := input.subcategory, date := input.date, note := input.note,
      created_at := some createdAtIso, syncStatus := SyncStatus.pending,
      updatedAt := t }
  (newExpense, dbAdd st newExpense)

/-- The `Partial<ApiExpense>` argument of `syncApi.updateExpense`,
restricted to the payload fields. -/
structure ExpenseUpdates where
  amount : Option Int
  category : Option String
  subcategory : Option (Option String)
  date : Option String
  note : Option (Option String)
deriving DecidableEq, Repr

/-- The spread `{ ...existing, ...updates }`. -/
def applyUpdates (e : LocalExpense) (u : ExpenseUpdates) : LocalExpense :=
  { e with
    amount := u.amount.getD e.amount,
    category := u.category.getD e.category,
    subcategory := u.subcategory.getD e.subcategory,
    date := u.date.getD e.date,
    note := u.note.getD e.note }

/-- sync.ts, `syncApi.updateExpense`. -/
def updateExpense (i : String) (u : ExpenseUpdates) (t : Nat) (st : Store) :
    Option LocalExpense × Store :=
  match dbGet st i with
  | none => (none, st)
  | some existing =>
    if existing.syncStatus = SyncStatus.deleted then (none, st)
    else
      let updated := { applyUpdates existing u with
        syncStatus := SyncStatus.pending, updatedAt := t }
      (some updated, dbPut st updated)

/-- sync.ts, `syncApi.deleteExpense`. -/
def deleteExpense (i : String) (t : Nat) (st : Store) : Bool × Store :=
  match dbGet st i with
  | none => (false, st)
  | some existing =>
    if existing.syncStatus = SyncStatus.pending && optStrFalsy existing.created_at then
      (true, dbDelete st i)
    else
      (true, st.map (fun x => if x.id = i then
        { x with syncStatus := SyncStatus.deleted, updatedAt := t } else x))

/-- db.ts, `getPendingCount`: rows whose status is 'pending' or 'deleted'. -/
def getPendingCount (st : Store) : Nat :=
  (st.filter (fun e => e.syncStatus = SyncStatus.pending ∨
    e.syncStatus = SyncStatus.deleted)).length

/-- The record returned by `syncApi.getSyncStatus`. -/
structure SyncStatusInfo where
  isOnline : Bool
  pendingCount : Nat
  lastSyncTime : Option Nat
deriving DecidableEq, Repr

/-- sync.ts, `syncApi.getSyncStatus`. -/
def getSyncStatus (online : Bool) (st : Store) (ls : Option Nat) : SyncStatusInfo :=
  { isOnline := online, pendingCount := getPendingCount st, lastSyncTime := ls }

/-- Rows whose id lies in `ids` get status 'synced'; the store effect of
the whole push loop for pending records is one such map. -/
def markSynced (ids : List String) (st : Store) : Store :=
  st.map (fun x => if x.id ∈ ids then { x with syncStatus := SyncStatus.synced } else x)

/-- The state after both push phases of a reachable `syncWithServer` run
(the value called `p2` in `syncWithServer`). -/
def syncPushed (pf df : String → Bool) (st : Store) (rem : Remote) :
    Store × Remote × SyncResult :=
  pushDeletedPhase df (pushPendingPhase pf st rem initResult).1
    (pushPendingPhase pf st rem initResult).2.1
    (pushPendingPhase pf st rem initResult).2.2

/-- A store/remote pair with nothing left to reconcile: every local row is
'synced' and every remote record has an equal-payload synced local copy. -/
def Quiescent (st : Store) (rem : Remote) : Prop :=
  (∀ x ∈ st, x.syncStatus = SyncStatus.synced) ∧
  (∀ r ∈ rem, ∃ l, dbGet st r.id = some l ∧ l.syncStatus = SyncStatus.synced ∧
    areExpensesEqual l r = true)

/-! Basic lemmas about the modelled store operations. -/

theorem dbGet_nil (i : String) : dbGet [] i = none := rfl

theorem dbGet_cons (x : LocalExpense) (xs : Store) (i : String) :
    dbGet (x :: xs) i = if x.id = i then some x else dbGet xs i := by
  by_cases h : x.id = i <;> simp [dbGet, List.find?_cons, h]

theorem dbGet_id_of_eq {st : Store} {i : String} {e : LocalExpense}
    (h : dbGet st i = some e) : e.id = i := by
  have h1 := List.find?_some h
  simpa using h1

theorem mem_of_dbGet {st : Store} {i : String} {e : LocalExpense}
    (h : dbGet st i = some e) : e ∈ st :=
  List.mem_of_find?_eq_some h

theorem dbGet_isSome_of_any {st : Store} {i : String}
    (h : st.any (fun x => x.id = i) = true) : ∃ y, dbGet st i = some y ∧ y.id = i := by
  induction st with
  | nil => simp at h
  | cons x xs ih =>
    by_cases hx : x.id = i
    · exact ⟨x, by simp [dbGet_cons, hx], hx⟩
    · simp only [List.any_cons, Bool.or_eq_true, decide_eq_true_eq] at h
      rcases h with h | h
      · exact absurd h hx
      · rcases ih h with ⟨y, hy, hyi⟩
        exact ⟨y, by simp [dbGet_cons, hx, hy], hyi⟩

theorem dbGet_map_of_id {f : LocalExpense → LocalExpense}
    (hf : ∀ x, (f x).id = x.id) (st : Store) (j : String) :
    dbGet (st.map f) j = (dbGet st j).map f := by
  induction st with
  | nil => rfl
  | cons x xs ih =>
    by_cases hx : x.id = j
    · simp [dbGet_cons, hf, hx]
    · simp [dbGet_cons, hf, hx, ih]

theorem dbGet_append (st ys : Store) (j : String) :
    dbGet (st ++ ys) j = (dbGet st j).or (dbGet ys j) := by
  simp [dbGet, List.find?_append]

theorem dbGet_dbPut_self (st : Store) (e : LocalExpense) :
    dbGet (dbPut st e) e.id = some e := by
  unfold dbPut
  split
  · rename_i h
    rw [@dbGet_map_of_id (fun x => if x.id = e.id then e else x)
      (by intro x; by_cases hx : x.id = e.id <;> simp [hx])]
    rcases dbGet_isSome_of_any h with ⟨y, hy, hyi⟩
    simp [hy, hyi]
  · rw [dbGet_append]
    rename_i h
    have hnone : dbGet st e.id = none := by
      unfold dbGet
      rw [List.find?_eq_none]
      intro x hx
      simp only [List.any_eq_true, decide_eq_true_eq] at h
      simp only [decide_eq_true_eq]
      exact fun hxe => h ⟨x, hx, hxe⟩
    simp [hnone, dbGet_cons]

theorem dbGet_dbPut_ne (st : Store) (e : LocalExpense) {j : String}
    (hj : j ≠ e.id) : dbGet (dbPut st e) j = dbGet st j := by
  unfold dbPut
  split
  · rw [dbGet_map_of_id (f := fun x => if x.id = e.id then e else x)
      (by intro x; by_cases hx : x.id = e.id <;> simp [hx])]
    cases hg : dbGet st j with
    | none => rfl
    | some y =>
      have hyj : y.id = j := dbGet_id_of_eq hg
      have : ¬ y.id = e.id := by rw [hyj]; exact hj
      simp [this]
  · rw [dbGet_append]
    have hne : ¬ e.id = j := fun h => hj h.symm
    have h1 : dbGet [e] j = none := by rw [dbGet_cons, if_neg hne]; rfl
    simp [h1]

theorem dbGet_filter_of_pred {st : Store} {j : String} {e : LocalExpense}
    {p : LocalExpense → Bool} (hget : dbGet st j = some e) (hp : p e = true) :
    dbGet (st.filter p) j = some e := by
  induction st with
  | nil => simp [dbGet] at hget
  | cons x xs ih =>
    rw [dbGet_cons] at hget
    by_cases hx : x.id = j
    · rw [if_pos hx] at hget
      obtain rfl : x = e := by injection hget
      simp [List.filter_cons, hp, dbGet_cons, hx]
    · rw [if_neg hx] at hget
      by_cases hpx : p x = true
      · simp [List.filter_cons, hpx, dbGet_cons, hx, ih hget]
      · simp only [List.filter_cons, Bool.not_eq_true] at *
        simp [hpx, ih hget]

theorem dbGet_dbDelete_ne (st : Store) {i j : String} (hj : j ≠ i) :
    dbGet (dbDelete st i) j = dbGet st j := by
  induction st with
  | nil => rfl
  | cons x xs ih =>
    unfold dbDelete at *
    rw [List.filter_cons]
    by_cases hx : x.id = i
    · have hxj : ¬ x.id = j := fun h => hj (h.symm.trans hx)
      rw [if_neg (by simp [hx]), dbGet_cons, if_neg hxj]
      exact ih
    · rw [if_pos (by simp [hx]), dbGet_cons, dbGet_cons]
      by_cases hxj : x.id = j
      · rw [if_pos hxj, if_pos hxj]
      · rw [if_neg hxj, if_neg hxj]
        exact ih

theorem mem_dbPut {st : Store} {e x : LocalExpense} (h : x ∈ dbPut st e) :
    x ∈ st ∨ x = e := by
  unfold dbPut at h
  split at h
  · rcases List.mem_map.1 h with ⟨y, hy, hyx⟩
    by_cases hye : y.id = e.id
    · simp only [hye, if_pos] at hyx
      exact Or.inr hyx.symm
    · simp only [hye, if_neg, if_false] at hyx
      exact Or.inl (hyx ▸ hy)
  · rcases List.mem_append.1 h with h | h
    · exact Or.inl h
    · simp only [List.mem_singleton] at h
      exact Or.inr h

theorem eq_of_mem_nodup_ids {st : Store} (hu : (st.map (fun x => x.id)).Nodup)
    {a b : LocalExpense} (ha : a ∈ st) (hb : b ∈ st) (hab : a.id = b.id) : a = b :=
  List.inj_on_of_nodup_map hu ha hb hab

/-! Claim theorems for the read/write operations. -/

/-- C5: when the reachability probe fails, `synchronize()` returns
immediately with `success=false`, `pushed=0`, `pulled=0` and an
unreachability error, and the expense store, every sync status, the remote
and `lastSyncTime` are left exactly as they were. -/
theorem sync_unreachable_is_noop (pf df : String → Bool) (t : Nat) (st : Store)
    (rem : Remote) (ls : Option Nat) :
    syncWithServer false pf df t st rem ls =
      ⟨st, rem, ls, ⟨false, 0, 0, ["Backend is not reachable"]⟩⟩ := rfl

/-- C9: the pendingCount exposed through getSyncStatus equals the number of
'pending' rows plus the number of 'deleted' rows, and it is zero exactly
when every stored record is 'synced'. -/
theorem pendingCount_counts_pending_and_deleted (online : Bool) (st : Store)
    (ls : Option Nat) :
    (getSyncStatus online st ls).pendingCount =
      (st.filter (fun e => e.syncStatus = SyncStatus.pending)).length +
      (st.filter (fun e => e.syncStatus = SyncStatus.deleted)).length ∧
    ((getSyncStatus online st ls).pendingCount = 0 ↔
      ∀ e ∈ st, e.syncStatus = SyncStatus.synced) := by
  constructor
  · show getPendingCount st = _
    induction st with
    | nil => rfl
    | cons x xs ih =>
      unfold getPendingCount at *
      rw [List.filter_cons, List.filter_cons, List.filter_cons]
      cases hx : x.syncStatus
      · rw [if_neg (by simp [hx]), if_neg (by simp [hx]), if_neg (by simp [hx])]
        exact ih
      · rw [if_pos (by simp [hx]), if_pos (by simp [hx]), if_neg (by simp [hx])]
        simp only [List.length_cons, ih]
        omega
      · rw [if_pos (by simp [hx]), if_neg (by simp [hx]), if_pos (by simp [hx])]
        simp only [List.length_cons, ih]
        omega
  · show getPendingCount st = 0 ↔ _
    unfold getPendingCount
    rw [List.length_eq_zero, List.filter_eq_nil_iff]
    constructor
    · intro h e he
      have h1 := h e he
      cases hx : e.syncStatus
      · rfl
      · simp [hx] at h1
      · simp [hx] at h1
    · intro h e he
      simp [h e he]

/-- C10: deleteRecord with an id absent from the store returns false and
leaves the store unchanged; with any present id, including a row already
marked 'deleted', it returns true. -/
theorem deleteExpense_absent_false_present_true (st : Store) (i : String) (t : Nat) :
    (dbGet st i = none → deleteExpense i t st = (false, st)) ∧
    (∀ ex, dbGet st i = some ex → (deleteExpense i t st).1 = true) := by
  constructor
  · intro h
    simp [deleteExpense, h]
  · intro ex h
    simp only [deleteExpense, h]
    split <;> rfl

/-- C10 witness: an absent id is refused, a present already-deleted id is
accepted. -/
theorem deleteExpense_absent_false_present_true_witness :
    deleteExpense "z" 0 [] = (false, []) ∧
    (deleteExpense "a" 7
      [⟨"a", 1, "Food", none, "2025-01-01", none, some "c",
        SyncStatus.deleted, 0⟩]).1 = true :=
  ⟨(deleteExpense_absent_false_present_true [] "z" 0).1 (by decide),
   (deleteExpense_absent_false_present_true _ "a" 7).2
     ⟨"a", 1, "Food", none, "2025-01-01", none, some "c", SyncStatus.deleted, 0⟩
     (by decide)⟩

/-- C8: listRecords returns exactly the records whose sync status is not
'deleted', ordered by domain date descending. -/
theorem getAllExpenses_spec (st : Store) :
    (∀ e, e ∈ getAllExpenses st ↔ e ∈ st ∧ e.syncStatus ≠ SyncStatus.deleted) ∧
    (getAllExpenses st).Pairwise (fun a b => b.date ≤ a.date) ∧
    (getAllExpenses st).Perm (st.filter (fun e => ¬ e.syncStatus = SyncStatus.deleted)) := by
  refine ⟨?_, ?_, ?_⟩
  · intro e
    unfold getAllExpenses
    rw [List.mem_mergeSort, List.mem_filter]
    simp
  · unfold getAllExpenses
    have h := @List.sorted_mergeSort LocalExpense
      (fun a b : LocalExpense => decide (b.date ≤ a.date))
      (fun a b c hab hbc => by
        simp only [decide_eq_true_eq] at *
        exact le_trans hbc hab)
      (fun a b => by
        simp only [Bool.or_eq_true, decide_eq_true_eq]
        exact le_total b.date a.date)
      (st.filter (fun e => ¬ e.syncStatus = SyncStatus.deleted))
    exact h.imp (by intro a b hab; simpa using hab)
  · unfold getAllExpenses
    exact List.mergeSort_perm _ _

/-- C3: in the pull loop, a local row with status 'synced' is overwritten
with the server payload and counted in `pulled` exactly when
`areExpensesEqual` reports a payload difference, the comparison being
field-by-field over amount, category, subcategory, date and note; an equal
payload leaves the row and the count untouched. -/
theorem pullStep_synced_overwrites_iff_differs (t : Nat) (st : Store) (n : Nat)
    (r : ApiExpense) (loc : LocalExpense) (hget : dbGet st r.id = some loc)
    (hs : loc.syncStatus = SyncStatus.synced) :
    (areExpensesEqual loc r = true ↔
      (loc.amount = r.amount ∧ loc.category = r.category ∧
       loc.subcategory = r.subcategory ∧ loc.date = r.date ∧ loc.note = r.note)) ∧
    (areExpensesEqual loc r = true → pullStep t (st, n) r = (st, n)) ∧
    (areExpensesEqual loc r = false →
      pullStep t (st, n) r = (dbPut st (toLocal r t), n + 1)) := by
  refine ⟨?_, ?_, ?_⟩
  · simp [areExpensesEqual, and_assoc]
  · intro h
    simp [pullStep, hget, hs, h]
  · intro h
    simp [pullStep, hget, hs, h]

/-- C3 witness: a synced row with a differing amount is overwritten and
counted. -/
theorem pullStep_synced_overwrites_iff_differs_witness :
    pullStep 9 ([⟨"a", 1, "Food", none, "2025-01-01", none, none,
        SyncStatus.synced, 0⟩], 0)
      ⟨"a", 2, "Food", none, "2025-01-01", none, none⟩ =
      (dbPut [⟨"a", 1, "Food", none, "2025-01-01", none, none, SyncStatus.synced, 0⟩]
        (toLocal ⟨"a", 2, "Food", none, "2025-01-01", none, none⟩ 9), 1) :=
  (pullStep_synced_overwrites_iff_differs 9 _ 0
    ⟨"a", 2, "Food", none, "2025-01-01", none, none⟩
    ⟨"a", 1, "Food", none, "2025-01-01", none, none, SyncStatus.synced, 0⟩
    (by decide) (by decide)).2.2 (by decide)

/-- C7 counterexample: this row is present in the store but marked
'deleted'; updateRecord returns none and leaves the store untouched
instead of applying the update and forcing 'pending', so "regardless of
the record's prior sync_status" fails on the code. -/
theorem updateExpense_deleted_row_counterexample :
    updateExpense "a" ⟨some 5, none, none, none, none⟩ 9
        [⟨"a", 1, "Food", none, "2025-01-01", none, some "c", SyncStatus.deleted, 3⟩] =
      (none,
       [⟨"a", 1, "Food", none, "2025-01-01", none, some "c", SyncStatus.deleted, 3⟩]) := by
  decide

/-- C7 (amended): for every row present in the store and not marked
'deleted', updateRecord applies the partial field updates, forces
sync_status back to 'pending' and sets updatedAt to now; a present row
marked 'deleted' is refused: the call returns none and the store is
unchanged. -/
theorem updateExpense_spec (st : Store) (i : String) (u : ExpenseUpdates) (t : Nat)
    (ex : LocalExpense) (hget : dbGet st i = some ex) :
    (ex.syncStatus ≠ SyncStatus.deleted →
      updateExpense i u t st =
        (some { applyUpdates ex u with
          syncStatus := SyncStatus.pending, updatedAt := t },
         dbPut st { applyUpdates ex u with
          syncStatus := SyncStatus.pending, updatedAt := t })) ∧
    (ex.syncStatus = SyncStatus.deleted → updateExpense i u t st = (none, st)) := by
  constructor
  · intro h
    simp [updateExpense, hget, h]
  · intro h
    simp [updateExpense, hget, h]

/-- C7 witness: a pending row is updated, restamped and forced pending. -/
theorem updateExpense_spec_witness :
    updateExpense "a" ⟨some 5, none, none, none, none⟩ 9
        [⟨"a", 1, "Food", none, "2025-01-01", none, some "c", SyncStatus.pending, 3⟩] =
      (some { applyUpdates
          ⟨"a", 1, "Food", none, "2025-01-01", none, some "c", SyncStatus.pending, 3⟩
          ⟨some 5, none, none, none, none⟩ with
          syncStatus := SyncStatus.pending, updatedAt := 9 },
       dbPut [⟨"a", 1, "Food", none, "2025-01-01", none, some "c", SyncStatus.pending, 3⟩]
        { applyUpdates
            ⟨"a", 1, "Food", none, "2025-01-01", none, some "c", SyncStatus.pending, 3⟩
            ⟨some 5, none, none, none, none⟩ with
          syncStatus := SyncStatus.pending, updatedAt := 9 }) :=
  (updateExpense_spec _ "a" ⟨some 5, none, none, none, none⟩ 9
    ⟨"a", 1, "Food", none, "2025-01-01", none, some "c", SyncStatus.pending, 3⟩
    (by decide)).1 (by decide)

/-! Push-phase lemmas.  The push loops only touch the store through
per-id updates and deletions, so each fold is characterised by a single
map or filter over the starting store. -/

theorem markSynced_nil (st : Store) : markSynced [] st = st := by
  unfold markSynced
  simp

theorem markSynced_dbSetSynced (ids : List String) (i : String) (st : Store) :
    markSynced ids (dbSetSynced st i) = markSynced (i :: ids) st := by
  unfold markSynced dbSetSynced
  rw [List.map_map]
  apply List.map_congr_left
  intro x _
  by_cases h1 : x.id = i
  · by_cases h2 : x.id ∈ ids <;>
      simp [Function.comp, h1, h2, List.mem_cons]
  · by_cases h2 : x.id ∈ ids <;>
      simp [Function.comp, h1, h2, List.mem_cons]

theorem pushPending_foldl_store (pf : String → Bool) (lst : List LocalExpense) :
    ∀ (st : Store) (rem : Remote) (res : SyncResult),
      (lst.foldl (pushPendingStep pf) (st, rem, res)).1 =
        markSynced ((lst.filter (fun y => ¬ pf y.id)).map (fun y => y.id)) st := by
  induction lst with
  | nil =>
    intro st rem res
    simp [markSynced_nil]
  | cons y lst ih =>
    intro st rem res
    rw [List.foldl_cons]
    have h := ih (pushPendingStep pf (st, rem, res) y).1
      (pushPendingStep pf (st, rem, res) y).2.1 (pushPendingStep pf (st, rem, res) y).2.2
    have h2 : lst.foldl (pushPendingStep pf) (pushPendingStep pf (st, rem, res) y) =
        lst.foldl (pushPendingStep pf) ((pushPendingStep pf (st, rem, res) y).1,
          (pushPendingStep pf (st, rem, res) y).2.1,
          (pushPendingStep pf (st, rem, res) y).2.2) := rfl
    rw [h2, h]
    by_cases hy : pf y.id
    · have h3 : (pushPendingStep pf (st, rem, res) y).1 = st := by
        simp [pushPendingStep, hy]
      rw [h3, List.filter_cons, if_neg (by simp [hy])]
    · have h3 : (pushPendingStep pf (st, rem, res) y).1 = dbSetSynced st y.id := by
        simp [pushPendingStep, hy]
      rw [h3, markSynced_dbSetSynced, List.filter_cons, if_pos (by simp [hy]),
        List.map_cons]

theorem pushPending_foldl_errors (pf : String → Bool) (lst : List LocalExpense) :
    ∀ (st : Store) (rem : Remote) (res : SyncResult),
      (lst.foldl (pushPendingStep pf) (st, rem, res)).2.2.errors =
        res.errors ++ (lst.filter (fun y => pf y.id)).map
          (fun y => "Failed to push expense " ++ y.id) := by
  induction lst with
  | nil =>
    intro st rem res
    simp
  | cons y lst ih =>
    intro st rem res
    rw [List.foldl_cons]
    have h := ih (pushPendingStep pf (st, rem, res) y).1
      (pushPendingStep pf (st, rem, res) y).2.1 (pushPendingStep pf (st, rem, res) y).2.2
    have h2 : lst.foldl (pushPendingStep pf) (pushPendingStep pf (st, rem, res) y) =
        lst.foldl (pushPendingStep pf) ((pushPendingStep pf (st, rem, res) y).1,
          (pushPendingStep pf (st, rem, res) y).2.1,
          (pushPendingStep pf (st, rem, res) y).2.2) := rfl
    rw [h2, h]
    by_cases hy : pf y.id
    · have h3 : (pushPendingStep pf (st, rem, res) y).2.2.errors =
          res.errors ++ ["Failed to push expense " ++ y.id] := by
        simp [pushPendingStep, hy]
      rw [h3, List.filter_cons, if_pos (by simp [hy]), List.map_cons,
        List.append_assoc, List.singleton_append]
    · have h3 : (pushPendingStep pf (st, rem, res) y).2.2.errors = res.errors := by
        simp [pushPendingStep, hy]
      rw [h3, List.filter_cons, if_neg (by simp [hy])]

theorem pushDeleted_foldl_store (df : String → Bool) (lst : List LocalExpense) :
    ∀ (st : Store) (rem : Remote) (res : SyncResult),
      (lst.foldl (pushDeletedStep df) (st, rem, res)).1 =
        st.filter (fun x => ¬ x.id ∈ (lst.filter (fun y => ¬ df y.id)).map
          (fun y => y.id)) := by
  induction lst with
  | nil =>
    intro st rem res
    simp
  | cons y lst ih =>
    intro st rem res
    rw [List.foldl_cons]
    have h := ih (pushDeletedStep df (st, rem, res) y).1
      (pushDeletedStep df (st, rem, res) y).2.1 (pushDeletedStep df (st, rem, res) y).2.2
    have h2 : lst.foldl (pushDeletedStep df) (pushDeletedStep df (st, rem, res) y) =
        lst.foldl (pushDeletedStep df) ((pushDeletedStep df (st, rem, res) y).1,
          (pushDeletedStep df (st, rem, res) y).2.1,
          (pushDeletedStep df (st, rem, res) y).2.2) := rfl
    rw [h2, h]
    by_cases hy : df y.id
    · have h3 : (pushDeletedStep df (st, rem, res) y).1 = st := by
        simp [pushDeletedStep, hy]
      rw [h3, List.filter_cons, if_neg (by simp [hy])]
    · have h3 : (pushDeletedStep df (st, rem, res) y).1 = dbDelete st y.id := by
        simp [pushDeletedStep, hy]
      rw [h3, List.filter_cons, if_pos (by simp [hy]), List.map_cons]
      unfold dbDelete
      rw [List.filter_filter]
      apply List.filter_congr
      intro x _
      by_cases hx1 : x.id = y.id <;> by_cases hx2 : x.id ∈ (lst.filter
          (fun y => ¬ df y.id)).map (fun y => y.id) <;>
        simp [hx1, hx2, List.mem_cons]

theorem pushDeleted_foldl_errors (df : String → Bool) (lst : List LocalExpense) :
    ∀ (st : Store) (rem : Remote) (res : SyncResult),
      (lst.foldl (pushDeletedStep df) (st, rem, res)).2.2.errors =
        res.errors ++ (lst.filter (fun y => df y.id)).map
          (fun y => "Failed to delete expense " ++ y.id) := by
  induction lst with
  | nil =>
    intro st rem res
    simp
  | cons y lst ih =>
    intro st rem res
    rw [List.foldl_cons]
    have h := ih (pushDeletedStep df (st, rem, res) y).1
      (pushDeletedStep df (st, rem, res) y).2.1 (pushDeletedStep df (st, rem, res) y).2.2
    have h2 : lst.foldl (pushDeletedStep df) (pushDeletedStep df (st, rem, res) y) =
        lst.foldl (pushDeletedStep df) ((pushDeletedStep df (st, rem, res) y).1,
          (pushDeletedStep df (st, rem, res) y).2.1,
          (pushDeletedStep df (st, rem, res) y).2.2) := rfl
    rw [h2, h]
    by_cases hy : df y.id
    · have h3 : (pushDeletedStep df (st, rem, res) y).2.2.errors =
          res.errors ++ ["Failed to delete expense " ++ y.id] := by
        simp [pushDeletedStep, hy]
      rw [h3, List.filter_cons, if_pos (by simp [hy]), List.map_cons,
        List.append_assoc, List.singleton_append]
    · have h3 : (pushDeletedStep df (st, rem, res) y).2.2.errors = res.errors := by
        simp [pushDeletedStep, hy]
      rw [h3, List.filter_cons, if_neg (by simp [hy])]

/-! Pull-phase lemmas. -/

theorem pullStep_preserves_nonsynced (t : Nat) (r : ApiExpense) (st : Store) (n : Nat)
    {e : LocalExpense} (hget : dbGet st e.id = some e)
    (hs : e.syncStatus ≠ SyncStatus.synced) :
    dbGet (pullStep t (st, n) r).1 e.id = some e := by
  cases hg : dbGet st r.id with
  | none =>
    have hne : e.id ≠ (toLocal r t).id := by
      intro hEq
      have h2 : dbGet st r.id = some e := by
        have : e.id = r.id := hEq
        rw [← this]
        exact hget
      rw [hg] at h2
      exact Option.noConfusion h2
    simp only [pullStep, hg]
    exact (dbGet_dbPut_ne st (toLocal r t) hne).trans hget
  | some loc =>
    by_cases hsy : loc.syncStatus = SyncStatus.synced
    · by_cases heq : areExpensesEqual loc r = true
      · simp [pullStep, hg, hsy, heq, hget]
      · have hne : e.id ≠ (toLocal r t).id := by
          intro hEq
          have h2 : dbGet st r.id = some e := by
            have : e.id = r.id := hEq
            rw [← this]
            exact hget
          rw [hg] at h2
          injection h2 with h3
          exact hs (h3 ▸ hsy)
        have heqf : areExpensesEqual loc r = false := by
          cases h : areExpensesEqual loc r
          · rfl
          · exact absurd h heq
        simp only [pullStep, hg, hsy, heqf]
        simp only [if_pos rfl, Bool.false_eq_true, if_false]
        exact (dbGet_dbPut_ne st (toLocal r t) hne).trans hget
    · simp [pullStep, hg, hsy, hget]

theorem pullPhase_preserves_nonsynced (t : Nat) (rem : Remote) :
    ∀ (st : Store) (n : Nat) {e : LocalExpense}, dbGet st e.id = some e →
      e.syncStatus ≠ SyncStatus.synced →
      dbGet (pullPhase t rem st n).1 e.id = some e := by
  induction rem with
  | nil =>
    intro st n e h _
    exact h
  | cons r rest ih =>
    intro st n e hget hs
    unfold pullPhase at *
    rw [List.foldl_cons]
    have h1 := pullStep_preserves_nonsynced t r st n hget hs
    have h2 := ih (pullStep t (st, n) r).1 (pullStep t (st, n) r).2 h1 hs
    simpa using h2

/-- C1: a local row whose sync status is 'pending' or 'deleted' at pull
time is left entirely unchanged by the pull loop of `synchronize()` -
payload, sync status and updatedAt included - whatever the remote payload
is. -/
theorem pull_never_overwrites_local_intent (t : Nat) (serverExpenses : Remote)
    (st : Store) (n : Nat) (e : LocalExpense) (hget : dbGet st e.id = some e)
    (hs : e.syncStatus = SyncStatus.pending ∨ e.syncStatus = SyncStatus.deleted) :
    dbGet (pullPhase t serverExpenses st n).1 e.id = some e := by
  apply pullPhase_preserves_nonsynced t serverExpenses st n hget
  rcases hs with h | h <;> simp [h]

/-- C1 witness: a pending row survives a pull that carries a conflicting
payload for the same id. -/
theorem pull_never_overwrites_local_intent_witness :
    dbGet (pullPhase 9 [⟨"a", 2, "X", none, "2025-05-05", none, none⟩]
      [⟨"a", 1, "Food", none, "2025-01-01", none, some "c", SyncStatus.pending, 3⟩] 0).1
      "a" =
      some ⟨"a", 1, "Food", none, "2025-01-01", none, some "c", SyncStatus.pending, 3⟩ :=
  pull_never_overwrites_local_intent 9
    [⟨"a", 2, "X", none, "2025-05-05", none, none⟩]
    [⟨"a", 1, "Food", none, "2025-01-01", none, some "c", SyncStatus.pending, 3⟩] 0
    ⟨"a", 1, "Food", none, "2025-01-01", none, some "c", SyncStatus.pending, 3⟩
    (by decide) (Or.inl (by decide))

theorem pullStep_get_ne (t : Nat) (r : ApiExpense) (st : Store) (n : Nat) {j : String}
    (hj : j ≠ r.id) : dbGet (pullStep t (st, n) r).1 j = dbGet st j := by
  cases hg : dbGet st r.id with
  | none =>
    simp only [pullStep, hg]
    exact dbGet_dbPut_ne st (toLocal r t) hj
  | some loc =>
    by_cases hsy : loc.syncStatus = SyncStatus.synced
    · by_cases heq : areExpensesEqual loc r = true
      · simp [pullStep, hg, hsy, heq]
      · have heqf : areExpensesEqual loc r = false := by
          cases hh : areExpensesEqual loc r
          · rfl
          · exact absurd hh heq
        simp only [pullStep, hg, hsy, heqf, if_pos rfl, Bool.false_eq_true, if_false]
        exact dbGet_dbPut_ne st (toLocal r t) hj
    · simp [pullStep, hg, hsy]

theorem pullPhase_untouched (t : Nat) (rem : Remote) :
    ∀ (st : Store) (n : Nat) {j : String}, ¬ j ∈ rem.map (fun r => r.id) →
      dbGet (pullPhase t rem st n).1 j = dbGet st j := by
  induction rem with
  | nil =>
    intro st n j _
    rfl
  | cons r rest ih =>
    intro st n j hj
    have hjr : j ≠ r.id := by
      intro h
      exact hj (by rw [List.map_cons, h]; exact List.mem_cons_self _ _)
    have hj2 : ¬ j ∈ rest.map (fun r => r.id) := by
      intro h
      exact hj (by rw [List.map_cons]; exact List.mem_cons_of_mem _ h)
    unfold pullPhase at *
    rw [List.foldl_cons]
    have h2 := ih (pullStep t (st, n) r).1 (pullStep t (st, n) r).2 hj2
    have h3 : dbGet (pullStep t (st, n) r).1 j = dbGet st j := pullStep_get_ne t r st n hjr
    rw [← h3]
    simpa using h2

theorem pullStep_preserves_all_synced (t : Nat) (r : ApiExpense) (st : Store) (n : Nat)
    (h : ∀ x ∈ st, x.syncStatus = SyncStatus.synced) :
    ∀ x ∈ (pullStep t (st, n) r).1, x.syncStatus = SyncStatus.synced := by
  intro x hx
  cases hg : dbGet st r.id with
  | none =>
    simp only [pullStep, hg] at hx
    rcases mem_dbPut hx with h1 | h1
    · exact h x h1
    · rw [h1]
      rfl
  | some loc =>
    have hsy : loc.syncStatus = SyncStatus.synced := h loc (mem_of_dbGet hg)
    by_cases heq : areExpensesEqual loc r = true
    · simp only [pullStep, hg, hsy, if_pos rfl, heq, if_true] at hx
      exact h x hx
    · have heqf : areExpensesEqual loc r = false := by
        cases hh : areExpensesEqual loc r
        · rfl
        · exact absurd hh heq
      simp only [pullStep, hg, hsy, heqf, if_pos rfl, Bool.false_eq_true, if_false] at hx
      rcases mem_dbPut hx with h1 | h1
      · exact h x h1
      · rw [h1]
        rfl

theorem pullPhase_preserves_all_synced (t : Nat) (rem : Remote) :
    ∀ (st : Store) (n : Nat), (∀ x ∈ st, x.syncStatus = SyncStatus.synced) →
      ∀ x ∈ (pullPhase t rem st n).1, x.syncStatus = SyncStatus.synced := by
  induction rem with
  | nil =>
    intro st n h x hx
    exact h x hx
  | cons r rest ih =>
    intro st n h x hx
    unfold pullPhase at *
    rw [List.foldl_cons] at hx
    have h1 := pullStep_preserves_all_synced t r st n h
    have h2 := ih (pullStep t (st, n) r).1 (pullStep t (st, n) r).2 h1
    exact h2 x (by simpa using hx)

theorem pullPhase_fixpoint (t : Nat) (rem : Remote) :
    ∀ (st : Store) (n : Nat),
      (∀ r ∈ rem, ∃ l, dbGet st r.id = some l ∧ l.syncStatus = SyncStatus.synced ∧
        areExpensesEqual l r = true) →
      pullPhase t rem st n = (st, n) := by
  induction rem with
  | nil =>
    intro st n _
    rfl
  | cons r rest ih =>
    intro st n h
    rcases h r (List.mem_cons_self r rest) with ⟨l, hl, hls, hle⟩
    have hstep : pullStep t (st, n) r = (st, n) := by
      simp [pullStep, hl, hls, hle]
    unfold pullPhase at *
    rw [List.foldl_cons, hstep]
    exact ih st n (fun r2 hr2 => h r2 (List.mem_cons_of_mem r hr2))

theorem pullPhase_establishes (t : Nat) (rem : Remote) :
    ∀ (st : Store) (n : Nat), (rem.map (fun r => r.id)).Nodup →
      (∀ x ∈ st, x.syncStatus = SyncStatus.synced) →
      ∀ r ∈ rem, ∃ l, dbGet (pullPhase t rem st n).1 r.id = some l ∧
        l.syncStatus = SyncStatus.synced ∧ areExpensesEqual l r = true := by
  induction rem with
  | nil =>
    intro st n _ _ r hr
    exact absurd hr (List.not_mem_nil r)
  | cons r0 rest ih =>
    intro st n hnd hall r hr
    rw [List.map_cons, List.nodup_cons] at hnd
    have hall1 : ∀ x ∈ (pullStep t (st, n) r0).1, x.syncStatus = SyncStatus.synced :=
      pullStep_preserves_all_synced t r0 st n hall
    rcases List.mem_cons.1 hr with rfl | hr2
    · have hafter : ∃ l, dbGet (pullStep t (st, n) r).1 r.id = some l ∧
          l.syncStatus = SyncStatus.synced ∧ areExpensesEqual l r = true := by
        cases hg : dbGet st r.id with
        | none =>
          refine ⟨toLocal r t, ?_, rfl, by simp [areExpensesEqual, toLocal]⟩
          simp only [pullStep, hg]
          exact dbGet_dbPut_self st (toLocal r t)
        | some loc =>
          have hsy : loc.syncStatus = SyncStatus.synced := hall loc (mem_of_dbGet hg)
          by_cases heq : areExpensesEqual loc r = true
          · exact ⟨loc, by simp [pullStep, hg, hsy, heq], hsy, heq⟩
          · have heqf : areExpensesEqual loc r = false := by
              cases hh : areExpensesEqual loc r
              · rfl
              · exact absurd hh heq
            refine ⟨toLocal r t, ?_, rfl, by simp [areExpensesEqual, toLocal]⟩
            simp only [pullStep, hg, hsy, heqf, if_pos rfl, Bool.false_eq_true, if_false]
            exact dbGet_dbPut_self st (toLocal r t)
      rcases hafter with ⟨l, hl, hls, hle⟩
      refine ⟨l, ?_, hls, hle⟩
      unfold pullPhase
      rw [List.foldl_cons]
      have h4 := pullPhase_untouched t rest (pullStep t (st, n) r).1
        (pullStep t (st, n) r).2 hnd.1
      unfold pullPhase at h4
      rw [show rest.foldl (pullStep t) (pullStep t (st, n) r) =
        rest.foldl (pullStep t) ((pullStep t (st, n) r).1,
          (pullStep t (st, n) r).2) from rfl]
      rw [h4]
      exact hl
    · have h2 := ih (pullStep t (st, n) r0).1 (pullStep t (st, n) r0).2 hnd.2 hall1 r hr2
      unfold pullPhase at *
      rw [List.foldl_cons]
      simpa using h2

/-! The pushes preserve uniqueness of the remote ids. -/

theorem remoteUpdate_ids (rem : Remote) (i : String) (d : ApiExpense) :
    (remoteUpdate rem i d).map (fun r => r.id) = rem.map (fun r => r.id) := by
  unfold remoteUpdate
  rw [List.map_map]
  apply List.map_congr_left
  intro r _
  by_cases h : r.id = i <;> simp [Function.comp, h]

theorem pushPendingStep_remote_nodup (pf : String → Bool)
    (acc : Store × Remote × SyncResult) (e : LocalExpense)
    (h : (acc.2.1.map (fun r => r.id)).Nodup) :
    (((pushPendingStep pf acc e).2.1).map (fun r => r.id)).Nodup := by
  by_cases hy : pf e.id
  · simpa [pushPendingStep, hy] using h
  · cases hg : remoteGetById acc.2.1 e.id with
    | some x =>
      have hr : (pushPendingStep pf acc e).2.1 = remoteUpdate acc.2.1 e.id (toApi e) := by
        simp [pushPendingStep, hy, hg]
      rw [hr, remoteUpdate_ids]
      exact h
    | none =>
      have hr : (pushPendingStep pf acc e).2.1 = remoteCreate acc.2.1 (toApi e) := by
        simp [pushPendingStep, hy, hg]
      have hni : ¬ e.id ∈ acc.2.1.map (fun r => r.id) := by
        intro hm
        rcases List.mem_map.1 hm with ⟨r, hmr, hri⟩
        have h2 := List.find?_eq_none.1 hg r hmr
        simp only [decide_eq_true_eq] at h2
        exact h2 hri
      rw [hr]
      unfold remoteCreate
      rw [List.map_append]
      refine List.nodup_append.2 ⟨h, List.nodup_singleton _, ?_⟩
      intro a ha hb
      simp only [List.map_cons, List.map_nil, List.mem_singleton] at hb
      have hb2 : a = e.id := hb
      exact hni (hb2 ▸ ha)

theorem pushPending_foldl_remote_nodup (pf : String → Bool) (lst : List LocalExpense) :
    ∀ (st : Store) (rem : Remote) (res : SyncResult), (rem.map (fun r => r.id)).Nodup →
      (((lst.foldl (pushPendingStep pf) (st, rem, res)).2.1).map (fun r => r.id)).Nodup := by
  induction lst with
  | nil =>
    intro st rem res h
    exact h
  | cons y lst ih =>
    intro st rem res h
    rw [List.foldl_cons]
    have h1 := pushPendingStep_remote_nodup pf (st, rem, res) y h
    have h2 := ih (pushPendingStep pf (st, rem, res) y).1
      (pushPendingStep pf (st, rem, res) y).2.1 (pushPendingStep pf (st, rem, res) y).2.2 h1
    simpa using h2

theorem pushDeletedStep_remote_nodup (df : String → Bool)
    (acc : Store × Remote × SyncResult) (e : LocalExpense)
    (h : (acc.2.1.map (fun r => r.id)).Nodup) :
    (((pushDeletedStep df acc e).2.1).map (fun r => r.id)).Nodup := by
  by_cases hy : df e.id
  · simpa [pushDeletedStep, hy] using h
  · have hr : (pushDeletedStep df acc e).2.1 = remoteDelete acc.2.1 e.id := by
      simp [pushDeletedStep, hy]
    rw [hr]
    unfold remoteDelete
    exact ((List.filter_sublist _).map _).nodup h

theorem pushDeleted_foldl_remote_nodup (df : String → Bool) (lst : List LocalExpense) :
    ∀ (st : Store) (rem : Remote) (res : SyncResult), (rem.map (fun r => r.id)).Nodup →
      (((lst.foldl (pushDeletedStep df) (st, rem, res)).2.1).map (fun r => r.id)).Nodup := by
  induction lst with
  | nil =>
    intro st rem res h
    exact h
  | cons y lst ih =>
    intro st rem res h
    rw [List.foldl_cons]
    have h1 := pushDeletedStep_remote_nodup df (st, rem, res) y h
    have h2 := ih (pushDeletedStep df (st, rem, res) y).1
      (pushDeletedStep df (st, rem, res) y).2.1 (pushDeletedStep df (st, rem, res) y).2.2 h1
    simpa using h2

/-! Cleanup-phase lemmas. -/

theorem cleanup_get_of_mem_server (serverIds : List String) (sids : List String) :
    ∀ (st : Store) {j : String}, j ∈ serverIds →
      dbGet (cleanupPhase serverIds sids st) j = dbGet st j := by
  induction sids with
  | nil =>
    intro st j _
    rfl
  | cons i rest ih =>
    intro st j hj
    unfold cleanupPhase at *
    rw [List.foldl_cons]
    by_cases hi : i ∈ serverIds
    · rw [if_pos hi]
      exact ih st hj
    · rw [if_neg hi]
      rw [ih (dbDelete st i) hj]
      exact dbGet_dbDelete_ne st (fun h => hi (h ▸ hj))

theorem cleanup_get_of_not_mem_sids (serverIds : List String) (sids : List String) :
    ∀ (st : Store) {j : String}, ¬ j ∈ sids →
      dbGet (cleanupPhase serverIds sids st) j = dbGet st j := by
  induction sids with
  | nil =>
    intro st j _
    rfl
  | cons i rest ih =>
    intro st j hj
    unfold cleanupPhase at *
    rw [List.foldl_cons]
    have hij : j ≠ i := fun h => hj (h ▸ List.mem_cons_self i rest)
    have hj2 : ¬ j ∈ rest := fun h => hj (List.mem_cons_of_mem i h)
    by_cases hi : i ∈ serverIds
    · rw [if_pos hi]
      exact ih st hj2
    · rw [if_neg hi]
      rw [ih (dbDelete st i) hj2]
      exact dbGet_dbDelete_ne st hij

theorem mem_of_mem_cleanup (serverIds : List String) (sids : List String) :
    ∀ (st : Store) {x : LocalExpense}, x ∈ cleanupPhase serverIds sids st → x ∈ st := by
  induction sids with
  | nil =>
    intro st x h
    exact h
  | cons i rest ih =>
    intro st x h
    unfold cleanupPhase at *
    rw [List.foldl_cons] at h
    by_cases hi : i ∈ serverIds
    · rw [if_pos hi] at h
      exact ih st h
    · rw [if_neg hi] at h
      have h2 := ih (dbDelete st i) h
      exact List.mem_of_mem_filter h2

/-! Projections of a reachable `syncWithServer` run, phrased through
`syncPushed`; each is definitional. -/

theorem syncWithServer_true_store (pf df : String → Bool) (t : Nat) (st : Store)
    (rem : Remote) (ls : Option Nat) :
    (syncWithServer true pf df t st rem ls).store =
      cleanupPhase ((syncPushed pf df st rem).2.1.map (fun r => r.id))
        (((syncPushed pf df st rem).1.filter
          (fun e => e.syncStatus = SyncStatus.synced)).map (fun e => e.id))
        (pullPhase t (syncPushed pf df st rem).2.1 (syncPushed pf df st rem).1
          (syncPushed pf df st rem).2.2.pulled).1 := rfl

theorem syncWithServer_true_remote (pf df : String → Bool) (t : Nat) (st : Store)
    (rem : Remote) (ls : Option Nat) :
    (syncWithServer true pf df t st rem ls).remote = (syncPushed pf df st rem).2.1 := rfl

theorem syncWithServer_true_errors (pf df : String → Bool) (t : Nat) (st : Store)
    (rem : Remote) (ls : Option Nat) :
    (syncWithServer true pf df t st rem ls).result.errors =
      (syncPushed pf df st rem).2.2.errors := rfl

theorem syncWithServer_true_success (pf df : String → Bool) (t : Nat) (st : Store)
    (rem : Remote) (ls : Option Nat) :
    (syncWithServer true pf df t st rem ls).result.success = true := rfl

theorem syncWithServer_true_pushed (pf df : String → Bool) (t : Nat) (st : Store)
    (rem : Remote) (ls : Option Nat) :
    (syncWithServer true pf df t st rem ls).result.pushed =
      (syncPushed pf df st rem).2.2.pushed := rfl

theorem syncWithServer_true_pulled (pf df : String → Bool) (t : Nat) (st : Store)
    (rem : Remote) (ls : Option Nat) :
    (syncWithServer true pf df t st rem ls).result.pulled =
      (pullPhase t (syncPushed pf df st rem).2.1 (syncPushed pf df st rem).1
        (syncPushed pf df st rem).2.2.pulled).2 := rfl

/-- C6: for a pending record whose push fails, an error naming the record
is in the result's errors list, the record is still present and bitwise
unchanged (in particular still 'pending', so the next cycle retries it) in
the final store, the cycle still completes with success=true, and the push
phase still marks every other pending record whose push succeeds as
'synced'. -/
theorem push_failure_recorded_and_retried (pf df : String → Bool) (t : Nat)
    (st : Store) (rem : Remote) (ls : Option Nat) (e : LocalExpense)
    (hu : (st.map (fun x => x.id)).Nodup)
    (hget : dbGet st e.id = some e)
    (hp : e.syncStatus = SyncStatus.pending)
    (hf : pf e.id = true) :
    ("Failed to push expense " ++ e.id) ∈
      (syncWithServer true pf df t st rem ls).result.errors ∧
    dbGet (syncWithServer true pf df t st rem ls).store e.id = some e ∧
    (syncWithServer true pf df t st rem ls).result.success = true ∧
    (∀ e2, dbGet st e2.id = some e2 → e2.syncStatus = SyncStatus.pending →
      pf e2.id = false →
      dbGet (pushPendingPhase pf st rem initResult).1 e2.id =
        some { e2 with syncStatus := SyncStatus.synced }) := by
  have hmem : e ∈ st := mem_of_dbGet hget
  set pend := st.filter (fun y => y.syncStatus = SyncStatus.pending) with hpend
  set pendOkIds := ((pend.filter (fun y => ¬ pf y.id)).map (fun y => y.id))
    with hpendOk
  have hidpres : ∀ x : LocalExpense,
      ((fun x => if x.id ∈ pendOkIds then
        { x with syncStatus := SyncStatus.synced } else x) x).id = x.id := by
    intro x
    by_cases h : x.id ∈ pendOkIds <;> simp [h]
  have hst1 : (pushPendingPhase pf st rem initResult).1 = markSynced pendOkIds st :=
    pushPending_foldl_store pf pend st rem initResult
  have henotin : ¬ e.id ∈ pendOkIds := by
    intro hm
    rcases List.mem_map.1 hm with ⟨y, hy, hyid⟩
    have hyf := (List.mem_filter.1 hy).2
    rw [hyid] at hyf
    simp [hf] at hyf
  have hgete1 : dbGet (markSynced pendOkIds st) e.id = some e := by
    unfold markSynced
    rw [dbGet_map_of_id hidpres st e.id, hget]
    simp [henotin]
  have huniq1 : ∀ y, y ∈ markSynced pendOkIds st → y.id = e.id → y = e := by
    intro y hy hyid
    unfold markSynced at hy
    rcases List.mem_map.1 hy with ⟨z, hz, hzy⟩
    have hzyid : y.id = z.id := by
      rw [← hzy]
      exact hidpres z
    have hze : z = e := eq_of_mem_nodup_ids hu hz hmem (hzyid ▸ hyid)
    rw [← hzy, hze]
    simp [henotin]
  set delOkIds := ((((markSynced pendOkIds st).filter
      (fun y => y.syncStatus = SyncStatus.deleted)).filter
      (fun y => ¬ df y.id)).map (fun y => y.id)) with hdelOk
  have hst2 : (syncPushed pf df st rem).1 =
      (markSynced pendOkIds st).filter (fun x => ¬ x.id ∈ delOkIds) := by
    unfold syncPushed pushDeletedPhase
    rw [hst1]
    exact pushDeleted_foldl_store df _ _ _ _
  have hedel : ¬ e.id ∈ delOkIds := by
    intro hm
    rcases List.mem_map.1 hm with ⟨y, hy, hyid⟩
    have hy1 := List.mem_filter.1 (List.mem_of_mem_filter hy)
    have hye : y = e := huniq1 y hy1.1 hyid
    have := hy1.2
    rw [hye] at this
    simp [hp] at this
  have hgete2 : dbGet (syncPushed pf df st rem).1 e.id = some e := by
    rw [hst2]
    exact dbGet_filter_of_pred hgete1 (by simp [hedel])
  have hgete3 : dbGet (pullPhase t (syncPushed pf df st rem).2.1
      (syncPushed pf df st rem).1 (syncPushed pf df st rem).2.2.pulled).1 e.id =
      some e :=
    pullPhase_preserves_nonsynced t _ _ _ hgete2 (by simp [hp])
  have hsynids : ¬ e.id ∈ (((syncPushed pf df st rem).1.filter
      (fun x => x.syncStatus = SyncStatus.synced)).map (fun x => x.id)) := by
    intro hm
    rcases List.mem_map.1 hm with ⟨y, hy, hyid⟩
    have hy1 := List.mem_filter.1 hy
    have hy2 : y ∈ markSynced pendOkIds st := by
      have := hy1.1
      rw [hst2] at this
      exact List.mem_of_mem_filter this
    have hye : y = e := huniq1 y hy2 hyid
    have := hy1.2
    rw [hye] at this
    simp [hp] at this
  refine ⟨?_, ?_, ?_, ?_⟩
  · rw [syncWithServer_true_errors]
    have herr : (syncPushed pf df st rem).2.2.errors =
        ((pushPendingPhase pf st rem initResult).2.2.errors ++
          ((((pushPendingPhase pf st rem initResult).1.filter
            (fun y => y.syncStatus = SyncStatus.deleted)).filter
            (fun y => df y.id)).map (fun y => "Failed to delete expense " ++ y.id))) :=
      pushDeleted_foldl_errors df _ _ _ _
    have herr1 : (pushPendingPhase pf st rem initResult).2.2.errors =
        initResult.errors ++ ((pend.filter (fun y => pf y.id)).map
          (fun y => "Failed to push expense " ++ y.id)) :=
      pushPending_foldl_errors pf pend st rem initResult
    rw [herr, herr1]
    have hein : e ∈ pend.filter (fun y => pf y.id) := by
      rw [hpend]
      exact List.mem_filter.2 ⟨List.mem_filter.2 ⟨hmem, by simp [hp]⟩, by simp [hf]⟩
    have : ("Failed to push expense " ++ e.id) ∈
        (pend.filter (fun y => pf y.id)).map
          (fun y => "Failed to push expense " ++ y.id) :=
      List.mem_map.2 ⟨e, hein, rfl⟩
    exact List.mem_append.2 (Or.inl (List.mem_append.2 (Or.inr this)))
  · rw [syncWithServer_true_store]
    rw [cleanup_get_of_not_mem_sids _ _ _ hsynids]
    exact hgete3
  · exact syncWithServer_true_success pf df t st rem ls
  · intro e2 hg2 hp2 hf2
    rw [hst1]
    unfold markSynced
    rw [dbGet_map_of_id hidpres st e2.id, hg2]
    have h2in : e2.id ∈ pendOkIds := by
      rw [hpendOk]
      refine List.mem_map.2 ⟨e2, ?_, rfl⟩
      exact List.mem_filter.2 ⟨List.mem_filter.2 ⟨mem_of_dbGet hg2, by simp [hp2]⟩,
        by simp [hf2]⟩
    simp [h2in]

/-- C6 witness: two pending rows, the first push fails and the second
succeeds. -/
theorem push_failure_recorded_and_retried_witness :
    ("Failed to push expense " ++ "a") ∈
      (syncWithServer true (fun i => i == "a") (fun _ => false) 9
        [⟨"a", 1, "Food", none, "2025-01-01", none, some "c", SyncStatus.pending, 3⟩,
         ⟨"b", 2, "Fuel", none, "2025-01-02", none, some "c", SyncStatus.pending, 3⟩]
        [] none).result.errors ∧
    dbGet (syncWithServer true (fun i => i == "a") (fun _ => false) 9
        [⟨"a", 1, "Food", none, "2025-01-01", none, some "c", SyncStatus.pending, 3⟩,
         ⟨"b", 2, "Fuel", none, "2025-01-02", none, some "c", SyncStatus.pending, 3⟩]
        [] none).store "a" =
      some ⟨"a", 1, "Food", none, "2025-01-01", none, some "c", SyncStatus.pending, 3⟩ ∧
    dbGet (pushPendingPhase (fun i => i == "a")
        [⟨"a", 1, "Food", none, "2025-01-01", none, some "c", SyncStatus.pending, 3⟩,
         ⟨"b", 2, "Fuel", none, "2025-01-02", none, some "c", SyncStatus.pending, 3⟩]
        [] initResult).1 "b" =
      some ⟨"b", 2, "Fuel", none, "2025-01-02", none, some "c", SyncStatus.synced, 3⟩ := by
  have h := push_failure_recorded_and_retried (fun i => i == "a") (fun _ => false) 9
    [⟨"a", 1, "Food", none, "2025-01-01", none, some "c", SyncStatus.pending, 3⟩,
     ⟨"b", 2, "Fuel", none, "2025-01-02", none, some "c", SyncStatus.pending, 3⟩]
    [] none
    ⟨"a", 1, "Food", none, "2025-01-01", none, some "c", SyncStatus.pending, 3⟩
    (by decide) (by decide) (by decide) (by decide)
  exact ⟨h.1, h.2.1,
    h.2.2.2 ⟨"b", 2, "Fuel", none, "2025-01-02", none, some "c", SyncStatus.pending, 3⟩
      (by decide) (by decide) (by decide)⟩

/-- After a reachable run with no per-record failures, the store and the
remote have nothing left to reconcile. -/
theorem sync_establishes_quiescent (t : Nat) (st : Store) (rem : Remote) (ls : Option Nat)
    (hrem : (rem.map (fun r => r.id)).Nodup) :
    Quiescent (syncWithServer true (fun _ => false) (fun _ => false) t st rem ls).store
      (syncWithServer true (fun _ => false) (fun _ => false) t st rem ls).remote := by
  set pf : String → Bool := fun _ => false with hpf
  set df : String → Bool := fun _ => false with hdf
  set pend := st.filter (fun y => y.syncStatus = SyncStatus.pending) with hpend
  set pendIds := pend.map (fun y => y.id) with hpendIds
  have hfilter_all : pend.filter (fun y => ¬ pf y.id) = pend := by
    simp [hpf]
  have hst1 : (pushPendingPhase pf st rem initResult).1 = markSynced pendIds st := by
    have h := pushPending_foldl_store pf pend st rem initResult
    rw [hfilter_all] at h
    exact h
  set st1 := markSynced pendIds st with hst1def
  have hnopend1 : ∀ x ∈ st1, ¬ x.syncStatus = SyncStatus.pending := by
    intro x hx
    rw [hst1def] at hx
    unfold markSynced at hx
    rcases List.mem_map.1 hx with ⟨z, hz, hzx⟩
    by_cases hzin : z.id ∈ pendIds
    · rw [← hzx]
      simp [hzin]
    · have hzp : ¬ z.syncStatus = SyncStatus.pending := by
        intro hzp
        exact hzin (List.mem_map.2 ⟨z, List.mem_filter.2 ⟨hz, by simp [hzp]⟩, rfl⟩)
      rw [← hzx]
      simpa [hzin] using hzp
  set dels := st1.filter (fun y => y.syncStatus = SyncStatus.deleted) with hdels
  set delIds := dels.map (fun y => y.id) with hdelIds
  have hdels_all : dels.filter (fun y => ¬ df y.id) = dels := by
    simp [hdf]
  have hst2 : (syncPushed pf df st rem).1 = st1.filter (fun x => ¬ x.id ∈ delIds) := by
    unfold syncPushed pushDeletedPhase
    rw [hst1]
    have h := pushDeleted_foldl_store df dels st1
      (pushPendingPhase pf st rem initResult).2.1
      (pushPendingPhase pf st rem initResult).2.2
    rw [hdels_all] at h
    exact h
  have hall2 : ∀ x ∈ (syncPushed pf df st rem).1, x.syncStatus = SyncStatus.synced := by
    intro x hx
    rw [hst2] at hx
    have hx1 := List.mem_filter.1 hx
    have hxs1 : x ∈ st1 := hx1.1
    have hnotdel : ¬ x.id ∈ delIds := by simpa using hx1.2
    have hnp := hnopend1 x hxs1
    cases hxx : x.syncStatus
    · rfl
    · exact absurd hxx hnp
    · exact absurd (List.mem_map.2 ⟨x, List.mem_filter.2 ⟨hxs1, by simp [hxx]⟩, rfl⟩)
        hnotdel
  have hnd2 : (((syncPushed pf df st rem).2.1).map (fun r => r.id)).Nodup := by
    unfold syncPushed pushDeletedPhase
    apply pushDeleted_foldl_remote_nodup
    unfold pushPendingPhase
    exact pushPending_foldl_remote_nodup pf _ st rem initResult hrem
  have hmain := pullPhase_establishes t (syncPushed pf df st rem).2.1
    (syncPushed pf df st rem).1 (syncPushed pf df st rem).2.2.pulled hnd2 hall2
  have hall3 := pullPhase_preserves_all_synced t (syncPushed pf df st rem).2.1
    (syncPushed pf df st rem).1 (syncPushed pf df st rem).2.2.pulled hall2
  unfold Quiescent
  constructor
  · intro x hx
    rw [syncWithServer_true_store] at hx
    exact hall3 x (mem_of_mem_cleanup _ _ _ hx)
  · intro r hr
    rw [syncWithServer_true_remote] at hr
    rw [syncWithServer_true_store]
    rcases hmain r hr with ⟨l, hl, hls, hle⟩
    refine ⟨l, ?_, hls, hle⟩
    rw [cleanup_get_of_mem_server _ _ _ (List.mem_map.2 ⟨r, hr, rfl⟩)]
    exact hl

/-- A reachable run on a quiescent pair reports zero pushed and zero
pulled records. -/
theorem sync_quiescent_counts (pf df : String → Bool) (t : Nat) (st : Store)
    (rem : Remote) (ls : Option Nat) (h : Quiescent st rem) :
    (syncWithServer true pf df t st rem ls).result.pushed = 0 ∧
    (syncWithServer true pf df t st rem ls).result.pulled = 0 := by
  have hpendnil : st.filter (fun y => y.syncStatus = SyncStatus.pending) = [] := by
    rw [List.filter_eq_nil_iff]
    intro x hx
    simp [h.1 x hx]
  have hdelnil : st.filter (fun y => y.syncStatus = SyncStatus.deleted) = [] := by
    rw [List.filter_eq_nil_iff]
    intro x hx
    simp [h.1 x hx]
  have hp1 : pushPendingPhase pf st rem initResult = (st, rem, initResult) := by
    unfold pushPendingPhase
    rw [hpendnil]
    rfl
  have hp2 : syncPushed pf df st rem = (st, rem, initResult) := by
    unfold syncPushed pushDeletedPhase
    rw [hp1]
    show (st.filter (fun y => y.syncStatus = SyncStatus.deleted)).foldl
      (pushDeletedStep df) (st, rem, initResult) = (st, rem, initResult)
    rw [hdelnil]
    rfl
  have hpull : pullPhase t rem st initResult.pulled = (st, initResult.pulled) :=
    pullPhase_fixpoint t rem st initResult.pulled h.2
  constructor
  · rw [syncWithServer_true_pushed, hp2]
    rfl
  · rw [syncWithServer_true_pulled, hp2]
    show (pullPhase t rem st initResult.pulled).2 = 0
    rw [hpull]
    rfl

/-- C4: two consecutive `synchronize()` runs with the remote reachable
throughout, no per-record failures, and no local or remote mutations in
between: the second run reports pushed=0 and pulled=0. -/
theorem sync_twice_second_reports_nothing (t t2 : Nat) (st : Store) (rem : Remote)
    (ls : Option Nat) (hrem : (rem.map (fun r => r.id)).Nodup) :
    (syncWithServer true (fun _ => false) (fun _ => false) t2
      (syncWithServer true (fun _ => false) (fun _ => false) t st rem ls).store
      (syncWithServer true (fun _ => false) (fun _ => false) t st rem ls).remote
      (syncWithServer true (fun _ => false) (fun _ => false) t st rem ls).lastSync
      ).result.pushed = 0 ∧
    (syncWithServer true (fun _ => false) (fun _ => false) t2
      (syncWithServer true (fun _ => false) (fun _ => false) t st rem ls).store
      (syncWithServer true (fun _ => false) (fun _ => false) t st rem ls).remote
      (syncWithServer true (fun _ => false) (fun _ => false) t st rem ls).lastSync
      ).result.pulled = 0 :=
  sync_quiescent_counts (fun _ => false) (fun _ => false) t2 _ _ _
    (sync_establishes_quiescent t st rem ls hrem)

/-- C4 witness: one pending local row and one remote record; the second
run reports zero pushed and zero pulled. -/
theorem sync_twice_second_reports_nothing_witness :
    (syncWithServer true (fun _ => false) (fun _ => false) 20
      (syncWithServer true (fun _ => false) (fun _ => false) 10
        [⟨"x", 75, "Shopping", none, "2025-02-01", none, some "c", SyncStatus.pending, 5⟩]
        [⟨"a", 100, "Groceries", none, "2025-01-02", none, none⟩] none).store
      (syncWithServer true (fun _ => false) (fun _ => false) 10
        [⟨"x", 75, "Shopping", none, "2025-02-01", none, some "c", SyncStatus.pending, 5⟩]
        [⟨"a", 100, "Groceries", none, "2025-01-02", none, none⟩] none).remote
      (syncWithServer true (fun _ => false) (fun _ => false) 10
        [⟨"x", 75, "Shopping", none, "2025-02-01", none, some "c", SyncStatus.pending, 5⟩]
        [⟨"a", 100, "Groceries", none, "2025-01-02", none, none⟩] none).lastSync
      ).result.pushed = 0 ∧
    (syncWithServer true (fun _ => false) (fun _ => false) 20
      (syncWithServer true (fun _ => false) (fun _ => false) 10
        [⟨"x", 75, "Shopping", none, "2025-02-01", none, some "c", SyncStatus.pending, 5⟩]
        [⟨"a", 100, "Groceries", none, "2025-01-02", none, none⟩] none).store
      (syncWithServer true (fun _ => false) (fun _ => false) 10
        [⟨"x", 75, "Shopping", none, "2025-02-01", none, some "c", SyncStatus.pending, 5⟩]
        [⟨"a", 100, "Groceries", none, "2025-01-02", none, none⟩] none).remote
      (syncWithServer true (fun _ => false) (fun _ => false) 10
        [⟨"x", 75, "Shopping", none, "2025-02-01", none, some "c", SyncStatus.pending, 5⟩]
        [⟨"a", 100, "Groceries", none, "2025-01-02", none, none⟩] none).lastSync
      ).result.pulled = 0 :=
  sync_twice_second_reports_nothing 10 20
    [⟨"x", 75, "Shopping", none, "2025-02-01", none, some "c", SyncStatus.pending, 5⟩]
    [⟨"a", 100, "Groceries", none, "2025-01-02", none, none⟩] none (by decide)

/-- C2: the code evaluated at the claim's own scenario: a record is created
locally (never synced, sync status still 'pending') and deleted before any
sync, yet it is kept as a 'deleted' tombstone instead of being purged, and
it appears in the push-deletes snapshot of the next cycle; `createExpense`
always sets `created_at`, so the purge branch guarded by
`!existing.created_at` can never fire for locally created records. -/
theorem deleteExpense_tombstones_never_synced_record :
    deleteExpense "e1" 200
        (createExpense "e1" "2025-06-01T10:00:00.000Z" 100
          ⟨7, "Food", none, "2025-06-01", none⟩ []).2 =
      (true, [⟨"e1", 7, "Food", none, "2025-06-01", none,
        some "2025-06-01T10:00:00.000Z", SyncStatus.deleted, 200⟩]) ∧
    ((deleteExpense "e1" 200
        (createExpense "e1" "2025-06-01T10:00:00.000Z" 100
          ⟨7, "Food", none, "2025-06-01", none⟩ []).2).2.filter
      (fun e => e.syncStatus = SyncStatus.deleted)) ≠ [] := by
  decide

end ExpenseBuddy
